import Mathlib

/-!
Verification development for a console address-book manager
(`ht1_console_helper_bot.py`).  The Python source is shallowly embedded:
validators become functions into `Except PyErr _`, the `dict`-backed
`AddressBook` becomes an association list with insert-or-replace update,
`datetime.date` becomes a `(year, month, day)` structure with proleptic
Gregorian ordinal arithmetic, and the clock read `datetime.today()` becomes
an explicit `today` parameter.
-/

namespace HelperBot

/-- Python exception classes that the program raises or catches
(`ValueError`, `KeyError`, `IndexError`). -/
inductive PyErr where
  | valueError
  | keyError
  | indexError
  deriving DecidableEq, Repr

/-- Python `str.capitalize()`: first character uppercased, the rest
lowercased (ASCII fragment). -/
def pyCapitalize (s : String) : String :=
  match s.data with
  | [] => ""
  | c :: cs => String.mk (c.toUpper :: cs.map Char.toLower)

/-- The check in `Name.validate`: Python `value` is truthy (non-empty) and
`value.isalpha()` (non-empty, every character alphabetic). -/
def nameValid (s : String) : Bool :=
  !s.isEmpty && s.data.all Char.isAlpha

/-- `Name.__init__`: raises `ValueError` unless `nameValid`; stores the raw
value unchanged (the `capitalize()` result computed by `validate` is
discarded: `super().__init__(value)` receives the original `value`). -/
def mkName (s : String) : Except PyErr String :=
  if nameValid s then .ok s else .error .valueError

/-- The check in `Phone.validate`: `re.fullmatch(r"\d{10}", value)`,
i.e. exactly ten digit characters. -/
def phoneValid (s : String) : Bool :=
  s.length == 10 && s.data.all Char.isDigit

/-- `Phone.__init__`: raises `ValueError` unless ten digits; stores the raw
value unchanged. -/
def mkPhone (s : String) : Except PyErr String :=
  if phoneValid s then .ok s else .error .valueError

/-! ## Dates (`datetime.date` fragment) -/

/-- A calendar date as Python's `datetime.date` stores it. -/
structure PyDate where
  year : Nat
  month : Nat
  day : Nat
  deriving DecidableEq, Repr

/-- Gregorian leap-year rule. -/
def isLeap (y : Nat) : Bool :=
  y % 4 == 0 && (y % 100 != 0 || y % 400 == 0)

/-- Length of month `m` in year `y`. -/
def daysInMonth (y m : Nat) : Nat :=
  if m = 2 then (if isLeap y then 29 else 28)
  else if m = 4 ∨ m = 6 ∨ m = 9 ∨ m = 11 then 30
  else 31

/-- The dates `datetime.date(y, m, d)` accepts: year in `MINYEAR..MAXYEAR`,
month in range, day in range for the month. -/
def validDate (y m d : Nat) : Bool :=
  1 ≤ y && y ≤ 9999 && 1 ≤ m && m ≤ 12 && 1 ≤ d && d ≤ daysInMonth y m

/-- Days in months strictly before month `m` of year `y`. -/
def daysBeforeMonth (y m : Nat) : Nat :=
  ((List.range (m - 1)).map (fun i => daysInMonth y (i + 1))).sum

/-- Python `date.toordinal()`: day count in the proleptic Gregorian
calendar with `0001-01-01` as day 1. -/
def toOrdinal (d : PyDate) : Nat :=
  let n := d.year - 1
  365 * n + n / 4 + n / 400 - n / 100 + daysBeforeMonth d.year d.month + d.day

/-- Python `date.weekday()`: Monday = 0 … Sunday = 6. -/
def weekday (d : PyDate) : Nat :=
  (toOrdinal d - 1) % 7

/-- Successor day of a (valid) date; used to model `date + timedelta`. -/
def succDay (d : PyDate) : PyDate :=
  if d.day < daysInMonth d.year d.month then ⟨d.year, d.month, d.day + 1⟩
  else if d.month < 12 then ⟨d.year, d.month + 1, 1⟩
  else ⟨d.year + 1, 1, 1⟩

/-- `d + timedelta(days = n)` for a valid date `d`. -/
def addDays (d : PyDate) (n : Nat) : PyDate :=
  Nat.rec d (fun _ ih => succDay ih) n

/-- Python `date` comparison (lexicographic on year, month, day). -/
def dateLt (a b : PyDate) : Bool :=
  a.year < b.year ||
    (a.year == b.year &&
      (a.month < b.month || (a.month == b.month && a.day < b.day)))

/-- Two-digit zero-padded decimal rendering (strftime `%d` / `%m` for
values below 100). -/
def pad2 (n : Nat) : String :=
  String.mk [Nat.digitChar (n / 10 % 10), Nat.digitChar (n % 10)]

/-- Four-digit zero-padded decimal rendering (strftime `%Y` for values
below 10000). -/
def pad4 (n : Nat) : String :=
  String.mk [Nat.digitChar (n / 1000 % 10), Nat.digitChar (n / 100 % 10),
    Nat.digitChar (n / 10 % 10), Nat.digitChar (n % 10)]

/-- `date.strftime("%d.%m.%Y")`. -/
def formatDate (d : PyDate) : String :=
  pad2 d.day ++ "." ++ pad2 d.month ++ "." ++ pad4 d.year

/-! ## Birthday parsing -/

/-- The anchored regex in `Birthday.__init__`:
`(0[1-9]|[12]\d|3[01])\.(0[1-9]|1[0-2])\.\d{4}`, decided character by
character. -/
def birthdayRegex (s : String) : Bool :=
  match s.data with
  | [d1, d2, c1, m1, m2, c2, y1, y2, y3, y4] =>
    c1 == '.' && c2 == '.' &&
    ((d1 == '0' && '1' ≤ d2 && d2 ≤ '9') ||
      ((d1 == '1' || d1 == '2') && d2.isDigit) ||
      (d1 == '3' && (d2 == '0' || d2 == '1'))) &&
    ((m1 == '0' && '1' ≤ m2 && m2 ≤ '9') ||
      (m1 == '1' && (m2 == '0' || m2 == '1' || m2 == '2'))) &&
    (y1.isDigit && y2.isDigit && y3.isDigit && y4.isDigit)
  | _ => false

/-- Numeric value of a digit character. -/
def charVal (c : Char) : Nat :=
  c.toNat - 48

/-- `datetime.strptime(value, "%d.%m.%Y")` applied to a string already
known to match `birthdayRegex`: extract the three numbers and require a
real calendar date (this is where `30.02.2020` fails). -/
def strptimeDMY (s : String) : Except PyErr PyDate :=
  match s.data with
  | [d1, d2, _, m1, m2, _, y1, y2, y3, y4] =>
    let d := charVal d1 * 10 + charVal d2
    let m := charVal m1 * 10 + charVal m2
    let y := charVal y1 * 1000 + charVal y2 * 100 + charVal y3 * 10 + charVal y4
    if validDate y m d then .ok ⟨y, m, d⟩ else .error .valueError
  | _ => .error .valueError

/-- `Birthday.__init__`: regex gate, then `strptime` round-trip; any
failure surfaces as `ValueError`. -/
def parseBirthday (s : String) : Except PyErr PyDate :=
  if birthdayRegex s then strptimeDMY s else .error .valueError

/-! ## Record -/

/-- One contact: the state of a Python `Record` object. -/
structure Rec where
  name : String
  phones : List String
  birthday : Option PyDate
  deriving DecidableEq, Repr

/-- `Record.__init__`: validate the name, start with no phones and no
birthday. -/
def mkRecord (name : String) : Except PyErr Rec :=
  (mkName name).map fun n => ⟨n, [], none⟩

/-- `Record.add_phone`: validate and append. -/
def Rec.addPhone (r : Rec) (phone : String) : Except PyErr Rec :=
  (mkPhone phone).map fun p => { r with phones := r.phones ++ [p] }

/-- The loop body of `Record.edit_phone` on the phone list: at the first
element equal to `old_phone`, construct `Phone(new_phone)` (which may
raise) and assign it in place, returning `true`; if no element matches,
return `false` without ever constructing `Phone(new_phone)`. -/
def editPhoneList : List String → String → String → Except PyErr (List String × Bool)
  | [], _, _ => .ok ([], false)
  | p :: ps, oldP, newP =>
    if p == oldP then
      (mkPhone newP).map fun q => (q :: ps, true)
    else
      (editPhoneList ps oldP newP).map fun (qs, b) => (p :: qs, b)

/-- `Record.edit_phone`. -/
def Rec.editPhone (r : Rec) (oldP newP : String) : Except PyErr (Rec × Bool) :=
  (editPhoneList r.phones oldP newP).map fun (qs, b) => ({ r with phones := qs }, b)

/-- `Record.add_birthday`: parse and overwrite. -/
def Rec.addBirthday (r : Rec) (s : String) : Except PyErr Rec :=
  (parseBirthday s).map fun d => { r with birthday := some d }

/-! ## AddressBook -/

/-- The `dict` backing an `AddressBook`, as an insertion-ordered
association list with unique keys. -/
abbrev Book := List (String × Rec)

/-- Python `dict.__setitem__`: replace in place when the key is present,
append otherwise. -/
def dictSet (book : Book) (key : String) (r : Rec) : Book :=
  match book with
  | [] => [(key, r)]
  | (k, v) :: rest =>
    if k == key then (k, r) :: rest else (k, v) :: dictSet rest key r

/-- `AddressBook.add_record`: `self.data[record.name.value] = record`. -/
def addRecord (book : Book) (r : Rec) : Book :=
  dictSet book r.name r

/-- `AddressBook.find`: `self.data.get(name)`. -/
def find (book : Book) (name : String) : Option Rec :=
  (List.find? (fun kv => kv.1 == name) book).map Prod.snd

/-- `AddressBook.delete`: remove the entry when present, no-op
otherwise. -/
def delete (book : Book) (name : String) : Book :=
  List.filter (fun kv => !(kv.1 == name)) book

/-- One entry of the `get_upcoming_birthdays` result list. -/
structure Congrat where
  name : String
  congratulationDate : String
  phone : String
  deriving DecidableEq, Repr

/-- `bday.replace(year := y)`: raises `ValueError` when the resulting
date does not exist (Feb 29 in a non-leap year). -/
def replaceYear (d : PyDate) (y : Nat) : Except PyErr PyDate :=
  if validDate y d.month d.day then .ok ⟨y, d.month, d.day⟩
  else .error .valueError

/-- The loop body of `get_upcoming_birthdays` for one record: `none` when
the record is skipped, `some` entry when it is reported, error when a
`replace` raises. -/
def processRecord (today : PyDate) (r : Rec) : Except PyErr (Option Congrat) :=
  match r.birthday with
  | none => .ok none
  | some bday =>
    match replaceYear bday today.year with
    | .error e => .error e
    | .ok thisYear =>
      match
        (if dateLt thisYear today then replaceYear bday (today.year + 1)
         else .ok thisYear) with
      | .error e => .error e
      | .ok occ =>
        let diff : Int := (toOrdinal occ : Int) - (toOrdinal today : Int)
        if 0 ≤ diff ∧ diff < 7 then
          let congrat :=
            if weekday occ = 5 then addDays occ 2
            else if weekday occ = 6 then addDays occ 1
            else occ
          let phone := match r.phones with
            | [] => " No phone "
            | p :: _ => p
          .ok (some ⟨r.name, formatDate congrat, phone⟩)
        else
          .ok none

/-- `AddressBook.get_upcoming_birthdays`, with the clock read
`datetime.today().date()` passed in as `today`.  The Python loop raises
out of the whole call at the first record whose `replace` fails. -/
def getUpcomingBirthdays (today : PyDate) : Book → Except PyErr (List Congrat)
  | [] => .ok []
  | (_, r) :: rest =>
    match processRecord today r with
    | .error e => .error e
    | .ok entry =>
      match getUpcomingBirthdays today rest with
      | .error e => .error e
      | .ok tailEntries =>
        .ok (match entry with
          | none => tailEntries
          | some e => e :: tailEntries)

/-! ## Persistence -/

/-- The per-contact shape `save_address_book` writes to JSON: phone
strings and an optional formatted birthday. -/
structure SavedRec where
  phones : List String
  birthday : Option String
  deriving DecidableEq, Repr

/-- The JSON snapshot: an object keyed by contact name (insertion
order preserved by `json.dump`/`json.load` and Python dicts). -/
abbrev Snapshot := List (String × SavedRec)

/-- `save_address_book`: one `SavedRec` per book entry, birthday
rendered with `strftime("%d.%m.%Y")` or `null`. -/
def saveAddressBook (book : Book) : Snapshot :=
  book.map fun (name, r) => (name, ⟨r.phones, r.birthday.map formatDate⟩)

/-- The `add_phone` loop of `load_address_book`. -/
def addPhonesLoop : Rec → List String → Except PyErr Rec
  | r, [] => .ok r
  | r, p :: ps =>
    match r.addPhone p with
    | .error e => .error e
    | .ok r2 => addPhonesLoop r2 ps

/-- The inner loop of `load_address_book` for one snapshot entry:
`Record(name)`, `add_phone` for each phone, `add_birthday` when the
stored birthday string is truthy. -/
def loadRecord (name : String) (info : SavedRec) : Except PyErr Rec :=
  match mkRecord name with
  | .error e => .error e
  | .ok r0 =>
    match addPhonesLoop r0 info.phones with
    | .error e => .error e
    | .ok r1 =>
      match info.birthday with
      | none => .ok r1
      | some bs => if bs = "" then .ok r1 else Rec.addBirthday r1 bs

/-- The entry loop of `load_address_book`, threading the book being
rebuilt. -/
def loadLoop : Snapshot → Book → Except PyErr Book
  | [], book => .ok book
  | (name, info) :: rest, book =>
    match loadRecord name info with
    | .error e => .error e
    | .ok r => loadLoop rest (addRecord book r)

/-- `load_address_book` applied to an existing snapshot: rebuild the
book entry by entry with `add_record`. -/
def loadAddressBook (snap : Snapshot) : Except PyErr Book :=
  loadLoop snap []

/-- `load_data` (pickle variant): the file system is modelled as the
optional pickled book; `FileNotFoundError` (absent file) is caught and
an empty `AddressBook` returned, so the caller never sees an error for
that case. -/
def loadData (file : Option Book) : Except PyErr Book :=
  match file with
  | none => .ok []
  | some book => .ok book

/-! ## Command handlers -/

/-- Result of a handler wrapped in the `input_error` decorator: either
the handler's string or a warning produced from a caught exception. -/
inductive HandlerResult where
  | ok (message : String)
  | warn (err : PyErr)
  deriving DecidableEq, Repr

/-- `add_contact` (already wrapped by `input_error`), with the book
threaded explicitly: `find`, create-and-insert when absent, then
`add_phone` when `phone` is truthy.  A `ValueError` raised by `Phone`
is caught by the decorator *after* the new record was inserted, so the
insertion survives. -/
def addContact (name phone : String) (book : Book) : Book × HandlerResult :=
  match find book name with
  | some r =>
    if phone ≠ "" then
      match r.addPhone phone with
      | .ok r2 => (dictSet book name r2, .ok "Contact updated.")
      | .error e => (book, .warn e)
    else (book, .ok "Contact updated.")
  | none =>
    match mkRecord name with
    | .error e => (book, .warn e)
    | .ok r =>
      let book1 := addRecord book r
      if phone ≠ "" then
        match r.addPhone phone with
        | .ok r2 => (dictSet book1 r.name r2, .ok "Contact added.")
        | .error e => (book1, .warn e)
      else (book1, .ok "Contact added.")

/-! ## Claim-side definitions

Definitions in this section follow the wording of the specification (or of
an amended claim) and are compared with the source embeddings above. -/

/-- Replacing the first occurrence of `oldP` by `newP`, in place (amended
claim C3: the first matching phone is replaced at its position). -/
def replaceFirst : List String → String → String → List String
  | [], _, _ => []
  | p :: ps, oldP, newP =>
    if p = oldP then newP :: ps else p :: replaceFirst ps oldP newP

/-! ## Helper lemmas -/

theorem digitChar_isDigit (v : Nat) (h : v < 10) :
    (Nat.digitChar v).isDigit = true ∧ charVal (Nat.digitChar v) = v := by
  interval_cases v <;> exact (by decide)

theorem isDigit_eq_digitChar (c : Char) (h : c.isDigit = true) :
    charVal c < 10 ∧ c = Nat.digitChar (charVal c) := by
  simp [Char.isDigit] at h
  obtain ⟨h1, h2⟩ := h
  have h1' : 48 ≤ c.toNat := UInt32.le_def.mp h1
  have h2' : c.toNat ≤ 57 := UInt32.le_def.mp h2
  have hv : charVal c < 10 := by unfold charVal; omega
  refine ⟨hv, ?_⟩
  have hc : c = Char.ofNat c.toNat := (Char.ofNat_toNat c).symm
  have he : c.toNat = 48 + charVal c := by unfold charVal; omega
  rw [hc, he]
  interval_cases h : (charVal c) <;> decide

theorem editPhoneList_eq (ps : List String) (oldP newP : String) :
    editPhoneList ps oldP newP =
      if oldP ∈ ps then
        (if phoneValid newP then .ok (replaceFirst ps oldP newP, true)
         else .error .valueError)
      else .ok (ps, false) := by
  induction ps with
  | nil => simp [editPhoneList]
  | cons p ps ih =>
    by_cases hp : p = oldP
    · subst hp
      simp [editPhoneList, replaceFirst, mkPhone]
      split <;> simp [Except.map]
    · have hne : (p == oldP) = false := by simp [hp]
      have hmem : oldP ∈ p :: ps ↔ oldP ∈ ps := by
        simp [List.mem_cons]
        intro h
        exact absurd h.symm hp
      simp only [editPhoneList, hne, Bool.false_eq_true, if_false, ih,
        replaceFirst, hp, hmem]
      by_cases hm : oldP ∈ ps
      · simp only [hm, if_true]
        split <;> simp [Except.map]
      · simp [hm, Except.map]

/-! ## Theorems for the claims -/

/-- C9: when no prior snapshot file exists, `load_data` catches
`FileNotFoundError` and returns an empty `AddressBook`; the caller never
sees an error for the file-not-found case. -/
theorem load_missing_snapshot : loadData none = .ok [] := rfl

/-- C8: `validatePhone` succeeds, returning the input unchanged, exactly
on strings of exactly ten ASCII digits, and fails with `ValueError`
(InvalidPhone) on every other string. -/
theorem phone_validation (s : String) :
    (mkPhone s = .ok s ↔ s.length = 10 ∧ ∀ c ∈ s.data, c.isDigit = true) ∧
    (mkPhone s = .error .valueError ↔
      ¬(s.length = 10 ∧ ∀ c ∈ s.data, c.isDigit = true)) := by
  have hb : (s.length == 10 && s.data.all Char.isDigit) = true ↔
      (s.length = 10 ∧ ∀ c ∈ s.data, c.isDigit = true) := by
    simp [List.all_eq_true]
  unfold mkPhone phoneValid
  by_cases hc : s.length = 10 ∧ ∀ c ∈ s.data, c.isDigit = true
  · rw [if_pos (hb.mpr hc)]
    exact ⟨⟨fun _ => hc, fun _ => rfl⟩,
      ⟨fun h => Except.noConfusion h, fun h => absurd hc h⟩⟩
  · rw [if_neg (fun h => hc (hb.mp h))]
    exact ⟨⟨fun h => Except.noConfusion h, fun h => absurd h hc⟩,
      ⟨fun _ => hc, fun _ => rfl⟩⟩

/-- C2 counterexample: `Name` accepts `"alice"` but stores it unchanged;
the capitalized form (which `validate` computes and then discards) would
be `"Alice"`, and the two differ. -/
theorem name_stores_raw_value_cex :
    mkName "alice" = .ok "alice" ∧ pyCapitalize "alice" = "Alice" ∧
      ("alice" : String) ≠ "Alice" := by
  exact ⟨rfl, rfl, by decide⟩

/-- C2 amended: for non-empty alphabetic-only input the `Name`
constructor succeeds and stores the *raw* input unchanged (the
capitalized form computed by `validate` is discarded); it fails with
`ValueError` (InvalidName) on the empty string or any string containing
a non-alphabetic character. -/
theorem name_validation_amended (s : String) :
    (mkName s = .ok s ↔ s ≠ "" ∧ ∀ c ∈ s.data, c.isAlpha = true) ∧
    (mkName s = .error .valueError ↔
      ¬(s ≠ "" ∧ ∀ c ∈ s.data, c.isAlpha = true)) := by
  have h1 : (!s.isEmpty) = true ↔ s ≠ "" := by
    rw [Bool.not_eq_true', Bool.eq_false_iff]
    exact not_congr (String.isEmpty_iff s)
  have hb : nameValid s = true ↔ (s ≠ "" ∧ ∀ c ∈ s.data, c.isAlpha = true) := by
    unfold nameValid
    rw [Bool.and_eq_true, h1, List.all_eq_true]
  unfold mkName
  by_cases hc : s ≠ "" ∧ ∀ c ∈ s.data, c.isAlpha = true
  · rw [if_pos (hb.mpr hc)]
    exact ⟨⟨fun _ => hc, fun _ => rfl⟩,
      ⟨fun h => Except.noConfusion h, fun h => absurd hc h⟩⟩
  · rw [if_neg (fun h => hc (hb.mp h))]
    exact ⟨⟨fun h => Except.noConfusion h, fun h => absurd h hc⟩,
      ⟨fun _ => hc, fun _ => rfl⟩⟩

/-- C3 counterexample: with `old` absent from the phone list,
`edit_phone` returns `false` without ever validating `new` — here `new`
is not a valid phone, yet no `ValueError` is raised. -/
theorem edit_phone_skips_validation_cex :
    Rec.editPhone ⟨"Alice", ["1111111111"], none⟩ "9999999999" "xx"
      = .ok (⟨"Alice", ["1111111111"], none⟩, false) ∧
    phoneValid "xx" = false := by
  exact ⟨rfl, rfl⟩

/-- C3 amended: `edit_phone` validates `new` only when some stored phone
equals `old`, and then before committing: the first match is replaced in
place and `true` returned (or `ValueError` raised on invalid `new`, with
the list untouched); when `old` is absent the list is untouched, `false`
is returned, and `new` is never validated. -/
theorem edit_phone_amended (r : Rec) (oldP newP : String) :
    Rec.editPhone r oldP newP =
      if oldP ∈ r.phones then
        (if phoneValid newP then
          .ok ({ r with phones := replaceFirst r.phones oldP newP }, true)
         else .error .valueError)
      else .ok (r, false) := by
  unfold Rec.editPhone
  rw [editPhoneList_eq]
  by_cases hm : oldP ∈ r.phones
  · simp only [hm, if_true]
    split <;> simp [Except.map]
  · simp [hm, Except.map]

/-- The key invariant that actually holds of the `dict`: every key equals
the (raw, uncapitalized) name stored in its `Record`. -/
abbrev keyInv (book : Book) : Prop :=
  ∀ kv ∈ book, kv.1 = kv.2.name

theorem keyInv_dictSet (book : Book) (key : String) (r : Rec)
    (h : keyInv book) (hk : key = r.name) : keyInv (dictSet book key r) := by
  induction book with
  | nil =>
    intro kv hkv
    rw [List.mem_singleton.mp hkv, hk]
  | cons kv0 rest ih =>
    obtain ⟨k0, v0⟩ := kv0
    by_cases hk0 : k0 = key
    · have : (k0 == key) = true := by simp [hk0]
      simp only [dictSet, this, if_true]
      intro kv hkv
      rcases List.mem_cons.mp hkv with heq | hmem
      · rw [heq, hk0, hk]
      · exact h kv (List.mem_cons_of_mem _ hmem)
    · have : (k0 == key) = false := by simp [hk0]
      simp only [dictSet, this, Bool.false_eq_true, if_false]
      intro kv hkv
      rcases List.mem_cons.mp hkv with heq | hmem
      · exact heq ▸ h (k0, v0) (List.mem_cons_self _ _)
      · exact ih (fun kv' hkv' => h kv' (List.mem_cons_of_mem _ hkv')) kv hmem

theorem find_dictSet (book : Book) (key : String) (r : Rec) :
    find (dictSet book key r) key = some r := by
  induction book with
  | nil => simp [dictSet, find]
  | cons kv0 rest ih =>
    obtain ⟨k0, v0⟩ := kv0
    by_cases hk0 : k0 = key
    · have : (k0 == key) = true := by simp [hk0]
      simp [dictSet, this, find]
    · have : (k0 == key) = false := by simp [hk0]
      simp only [dictSet, this, Bool.false_eq_true, if_false]
      simpa [find, this] using ih

theorem addPhone_name {r r' : Rec} {p : String}
    (h : r.addPhone p = .ok r') : r'.name = r.name := by
  unfold Rec.addPhone mkPhone at h
  split at h <;> simp [Except.map] at h
  rw [← h]

theorem editPhone_name {r r' : Rec} {oldP newP : String} {b : Bool}
    (h : r.editPhone oldP newP = .ok (r', b)) : r'.name = r.name := by
  rw [edit_phone_amended] at h
  split at h
  · split at h <;> simp at h
    rw [← h.1]
  · simp at h
    rw [← h.1]

theorem addBirthday_name {r r' : Rec} {s : String}
    (h : r.addBirthday s = .ok r') : r'.name = r.name := by
  unfold Rec.addBirthday at h
  cases hp : parseBirthday s with
  | error e => rw [hp] at h; simp [Except.map] at h
  | ok d =>
    rw [hp] at h
    simp [Except.map] at h
    rw [← h]

/-- C7 counterexample: `add_record` on a record named `"alice"` produces
the key `"alice"`, which is not the capitalized canonical form
`"Alice"` of the stored name — the keys are the raw validated names, not
their capitalized forms. -/
theorem canonical_key_cex :
    mkRecord "alice" = .ok ⟨"alice", [], none⟩ ∧
    addRecord [] ⟨"alice", [], none⟩ = [("alice", ⟨"alice", [], none⟩)] ∧
    pyCapitalize "alice" ≠ "alice" :=
  ⟨rfl, rfl, by decide⟩

/-- C7 amended: every `AddressBook` operation — `add_record`, `delete`,
and the record mutations reached through `find` (`add_phone`,
`edit_phone`, `add_birthday`) — preserves the invariant that every key
equals the *raw* name stored in its `Record` (not the capitalized form,
which the code computes and discards). -/
theorem key_invariant_amended (book : Book) (r : Rec)
    (name p oldP newP bs : String) :
    (keyInv book → keyInv (addRecord book r)) ∧
    (keyInv book → keyInv (delete book name)) ∧
    (keyInv book → ∀ r0 r1, find book name = some r0 →
      (r0.addPhone p = .ok r1 ∨
        (∃ b, r0.editPhone oldP newP = .ok (r1, b)) ∨
        r0.addBirthday bs = .ok r1) →
      keyInv (dictSet book name r1)) := by
  refine ⟨fun h => keyInv_dictSet book r.name r h rfl, ?_, ?_⟩
  · intro h kv hkv
    exact h kv (List.mem_of_mem_filter hkv)
  · intro h r0 r1 hfind hop
    have hname : name = r0.name := by
      unfold find at hfind
      cases hf : List.find? (fun kv => kv.1 == name) book with
      | none => rw [hf] at hfind; simp at hfind
      | some kv0 =>
        rw [hf] at hfind
        simp at hfind
        have hkey : (kv0.1 == name) = true :=
          @List.find?_some _ (fun kv => kv.1 == name) kv0 book hf
        have hmem : kv0 ∈ book := List.mem_of_find?_eq_some hf
        have := h kv0 hmem
        rw [← hfind, ← this]
        exact (beq_iff_eq.mp hkey).symm
    have hpres : r1.name = r0.name := by
      rcases hop with h1 | ⟨b, h2⟩ | h3
      · exact addPhone_name h1
      · exact editPhone_name h2
      · exact addBirthday_name h3
    exact keyInv_dictSet book name r1 h (by rw [hpres, hname])

/-- C7 amended, instantiated: the raw-name key invariant after an
`add_record`, a `delete`, and an `add_phone` reached through `find` on a
concrete book. -/
theorem key_invariant_amended_witness :
    keyInv (addRecord [("Bob", ⟨"Bob", [], none⟩)] ⟨"Alice", [], none⟩) ∧
    keyInv (delete [("Bob", ⟨"Bob", [], none⟩)] "Bob") ∧
    keyInv (dictSet [("Bob", ⟨"Bob", [], none⟩)] "Bob"
      ⟨"Bob", ["1234567890"], none⟩) := by
  refine ⟨(key_invariant_amended [("Bob", ⟨"Bob", [], none⟩)] ⟨"Alice", [], none⟩
      "Bob" "1234567890" "x" "x" "x").1 (by intro kv hkv; rw [List.mem_singleton.mp hkv]),
    (key_invariant_amended [("Bob", ⟨"Bob", [], none⟩)] ⟨"Alice", [], none⟩
      "Bob" "1234567890" "x" "x" "x").2.1 (by intro kv hkv; rw [List.mem_singleton.mp hkv]),
    (key_invariant_amended [("Bob", ⟨"Bob", [], none⟩)] ⟨"Alice", [], none⟩
      "Bob" "1234567890" "x" "x" "x").2.2 (by intro kv hkv; rw [List.mem_singleton.mp hkv])
      ⟨"Bob", [], none⟩ ⟨"Bob", ["1234567890"], none⟩ rfl (Or.inl rfl)⟩

theorem processRecord_feb29 (today : PyDate) (r : Rec) (b : PyDate)
    (hb : r.birthday = some b) (hm : b.month = 2) (hd : b.day = 29)
    (hleap : isLeap today.year = false) :
    processRecord today r = .error .valueError := by
  have hv : validDate today.year b.month b.day = false := by
    unfold validDate daysInMonth
    rw [hm, hd, if_pos rfl, hleap]
    simp
  unfold processRecord
  rw [hb]
  simp only [replaceYear, hv, Bool.false_eq_true, if_false]

/-- C4: an address book containing a record whose birthday is Feb 29,
queried with a reference date in a non-leap year, makes
`get_upcoming_birthdays` raise (the naive `replace(year=today.year)`
fails) instead of producing a result. -/
theorem feb29_nonleap_errors (today : PyDate) (book : Book) (k : String)
    (r : Rec) (b : PyDate) (hmem : (k, r) ∈ book) (hb : r.birthday = some b)
    (hm : b.month = 2) (hd : b.day = 29) (hleap : isLeap today.year = false) :
    ∃ e, getUpcomingBirthdays today book = .error e := by
  induction book with
  | nil => cases hmem
  | cons kv0 rest ih =>
    cases hpe : processRecord today kv0.2 with
    | error e =>
      refine ⟨e, ?_⟩
      obtain ⟨k0, r0⟩ := kv0
      simp [getUpcomingBirthdays, hpe, Except.bind]
    | ok o =>
      rcases List.mem_cons.mp hmem with heq | hmem'
      · exfalso
        have hbad : processRecord today kv0.2 = .error .valueError := by
          rw [show kv0.2 = r from congrArg Prod.snd heq.symm]
          exact processRecord_feb29 today r b hb hm hd hleap
        rw [hpe] at hbad
        exact Except.noConfusion hbad
      · obtain ⟨e, he⟩ := ih hmem'
        refine ⟨e, ?_⟩
        obtain ⟨k0, r0⟩ := kv0
        simp [getUpcomingBirthdays, hpe, he, Except.bind]

/-- C4 at a concrete input: a single Feb-29 contact and the non-leap
reference year 2025. -/
theorem feb29_nonleap_errors_witness :
    ∃ e, getUpcomingBirthdays ⟨2025, 6, 10⟩
      [("Bob", ⟨"Bob", [], some ⟨2000, 2, 29⟩⟩)] = .error e :=
  feb29_nonleap_errors ⟨2025, 6, 10⟩ _ "Bob" ⟨"Bob", [], some ⟨2000, 2, 29⟩⟩
    ⟨2000, 2, 29⟩ (List.mem_singleton.mpr rfl) rfl rfl rfl rfl

/-- C10: calling the `add_contact` handler with a fresh valid name and an
invalid (non-empty) phone string reports a `ValueError` warning, yet the
book has already been modified: a record with an empty phone list was
inserted before phone validation ran, and the insertion is not rolled
back. -/
theorem add_contact_not_atomic (book : Book) (name phone : String)
    (habs : find book name = none) (hname : nameValid name = true)
    (hphone : phone ≠ "") (hbad : phoneValid phone = false) :
    addContact name phone book =
      (addRecord book ⟨name, [], none⟩, .warn .valueError) ∧
    find (addRecord book ⟨name, [], none⟩) name = some ⟨name, [], none⟩ := by
  constructor
  · unfold addContact
    rw [habs]
    simp only [mkRecord, mkName, hname, if_true, Except.map]
    rw [if_pos hphone]
    simp only [Rec.addPhone, mkPhone, hbad, Bool.false_eq_true, if_false,
      Except.map]
  · exact find_dictSet book name ⟨name, [], none⟩

/-- C10 at a concrete input: adding `"Alice"` with the invalid phone
`"12"` to the empty book. -/
theorem add_contact_not_atomic_witness :
    addContact "Alice" "12" [] =
      (addRecord [] ⟨"Alice", [], none⟩, .warn .valueError) ∧
    find (addRecord [] ⟨"Alice", [], none⟩) "Alice" =
      some ⟨"Alice", [], none⟩ :=
  add_contact_not_atomic [] "Alice" "12" rfl rfl (by decide) rfl

theorem parse_format (y m d : Nat) (h : validDate y m d = true) :
    parseBirthday (formatDate ⟨y, m, d⟩) = .ok ⟨y, m, d⟩ := by
  have hdim : daysInMonth y m ≤ 31 := by
    unfold daysInMonth; split
    · split <;> omega
    · split <;> omega
  have h' := h
  simp [validDate] at h'
  have hy1 : 1 ≤ y := by omega
  have hy2 : y ≤ 9999 := by omega
  have hm1 : 1 ≤ m := by omega
  have hm2 : m ≤ 12 := by omega
  have hd1 : 1 ≤ d := by omega
  have hd31 : d ≤ 31 := by omega
  have hdata : (formatDate ⟨y, m, d⟩).data =
      [Nat.digitChar (d / 10 % 10), Nat.digitChar (d % 10), '.',
       Nat.digitChar (m / 10 % 10), Nat.digitChar (m % 10), '.',
       Nat.digitChar (y / 1000 % 10), Nat.digitChar (y / 100 % 10),
       Nat.digitChar (y / 10 % 10), Nat.digitChar (y % 10)] := by
    simp [formatDate, pad2, pad4, String.data_append]
  have hregex : birthdayRegex (formatDate ⟨y, m, d⟩) = true := by
    unfold birthdayRegex
    rw [hdata]
    simp only [Bool.and_eq_true, Bool.or_eq_true, beq_iff_eq, decide_eq_true_eq,
      true_and, and_assoc]
    clear hdim h h'
    refine ⟨?_, ?_, ?_, ?_, ?_, ?_⟩
    · interval_cases d <;> decide
    · interval_cases m <;> decide
    · exact (digitChar_isDigit _ (by omega)).1
    · exact (digitChar_isDigit _ (by omega)).1
    · exact (digitChar_isDigit _ (by omega)).1
    · exact (digitChar_isDigit _ (by omega)).1
  rw [parseBirthday, if_pos hregex]
  simp only [strptimeDMY, hdata]
  rw [(digitChar_isDigit (d / 10 % 10) (by omega)).2,
    (digitChar_isDigit (d % 10) (by omega)).2,
    (digitChar_isDigit (m / 10 % 10) (by omega)).2,
    (digitChar_isDigit (m % 10) (by omega)).2,
    (digitChar_isDigit (y / 1000 % 10) (by omega)).2,
    (digitChar_isDigit (y / 100 % 10) (by omega)).2,
    (digitChar_isDigit (y / 10 % 10) (by omega)).2,
    (digitChar_isDigit (y % 10) (by omega)).2]
  have hD : d / 10 % 10 * 10 + d % 10 = d := by omega
  have hM : m / 10 % 10 * 10 + m % 10 = m := by omega
  have hY : y / 1000 % 10 * 1000 + y / 100 % 10 * 100 + y / 10 % 10 * 10 + y % 10 = y := by
    omega
  rw [hD, hM, hY, if_pos h]

theorem isDigit_of_between (c : Char) (h1 : '0' ≤ c) (h2 : c ≤ '9') :
    c.isDigit = true := by
  simp [Char.isDigit]
  exact ⟨h1, h2⟩

theorem parseBirthday_shape (s : String) (dt : PyDate)
    (h : parseBirthday s = .ok dt) :
    s = formatDate dt ∧ validDate dt.year dt.month dt.day = true := by
  obtain ⟨l⟩ := s
  cases hreg : birthdayRegex (String.mk l) with
  | false =>
    rw [parseBirthday, hreg] at h
    simp at h
  | true =>
    rw [parseBirthday, if_pos hreg] at h
    rcases l with _|⟨d1,_|⟨d2,_|⟨c1,_|⟨m1,_|⟨m2,_|⟨c2,_|⟨y1,_|⟨y2,_|⟨y3,_|⟨y4,_|⟨z,zs⟩⟩⟩⟩⟩⟩⟩⟩⟩⟩⟩ <;>
      simp only [birthdayRegex, Bool.and_eq_true, Bool.or_eq_true, beq_iff_eq,
        decide_eq_true_eq, and_assoc, Bool.false_eq_true] at hreg
    obtain ⟨hc1, hc2, hDD, hMM, hy1, hy2, hy3, hy4⟩ := hreg
    subst hc1
    subst hc2
    have hd1 : d1.isDigit = true := by
      rcases hDD with (⟨h1, _⟩ | ⟨h1 | h1, _⟩) | ⟨h1, _⟩ <;> rw [h1] <;> decide
    have hd2 : d2.isDigit = true := by
      rcases hDD with (⟨_, hlo, hhi⟩ | ⟨_, hdig⟩) | ⟨_, h0 | h0⟩
      · exact isDigit_of_between d2 (le_trans (by decide) hlo) hhi
      · exact hdig
      · rw [h0]; decide
      · rw [h0]; decide
    have hm1 : m1.isDigit = true := by
      rcases hMM with ⟨h1, _⟩ | ⟨h1, _⟩ <;> rw [h1] <;> decide
    have hm2 : m2.isDigit = true := by
      rcases hMM with ⟨_, hlo, hhi⟩ | ⟨_, (h0 | h0) | h0⟩
      · exact isDigit_of_between m2 (le_trans (by decide) hlo) hhi
      · rw [h0]; decide
      · rw [h0]; decide
      · rw [h0]; decide
    obtain ⟨hv1, he1⟩ := isDigit_eq_digitChar d1 hd1
    obtain ⟨hv2, he2⟩ := isDigit_eq_digitChar d2 hd2
    obtain ⟨hv3, he3⟩ := isDigit_eq_digitChar m1 hm1
    obtain ⟨hv4, he4⟩ := isDigit_eq_digitChar m2 hm2
    obtain ⟨hv5, he5⟩ := isDigit_eq_digitChar y1 hy1
    obtain ⟨hv6, he6⟩ := isDigit_eq_digitChar y2 hy2
    obtain ⟨hv7, he7⟩ := isDigit_eq_digitChar y3 hy3
    obtain ⟨hv8, he8⟩ := isDigit_eq_digitChar y4 hy4
    simp only [strptimeDMY] at h
    split at h
    next hval =>
      injection h with h
      subst h
      refine ⟨?_, hval⟩
      apply String.ext
      unfold formatDate pad2 pad4
      simp only [String.data_append]
      have eD1 : (charVal d1 * 10 + charVal d2) / 10 % 10 = charVal d1 := by omega
      have eD2 : (charVal d1 * 10 + charVal d2) % 10 = charVal d2 := by omega
      have eM1 : (charVal m1 * 10 + charVal m2) / 10 % 10 = charVal m1 := by omega
      have eM2 : (charVal m1 * 10 + charVal m2) % 10 = charVal m2 := by omega
      have eY1 : (charVal y1 * 1000 + charVal y2 * 100 + charVal y3 * 10 + charVal y4)
          / 1000 % 10 = charVal y1 := by omega
      have eY2 : (charVal y1 * 1000 + charVal y2 * 100 + charVal y3 * 10 + charVal y4)
          / 100 % 10 = charVal y2 := by omega
      have eY3 : (charVal y1 * 1000 + charVal y2 * 100 + charVal y3 * 10 + charVal y4)
          / 10 % 10 = charVal y3 := by omega
      have eY4 : (charVal y1 * 1000 + charVal y2 * 100 + charVal y3 * 10 + charVal y4)
          % 10 = charVal y4 := by omega
      show [d1, d2, '.', m1, m2, '.', y1, y2, y3, y4] = _
      rw [eD1, eD2, eM1, eM2, eY1, eY2, eY3, eY4,
        ← he1, ← he2, ← he3, ← he4, ← he5, ← he6, ← he7, ← he8]
      rfl
    next hval => simp at h

/-- C6: `validateBirthday` succeeds exactly on `DD.MM.YYYY` strings (DD in
01–31, MM in 01–12) denoting a real Gregorian calendar date: on a
zero-padded `DD.MM.YYYY` rendering with DD/MM in range it succeeds iff the
day exists in that month and year; every accepted string is such a
rendering of a real date; `"29.02.2024"` is accepted (leap year) while
`"30.02.2020"` and `"31.04.2021"` fail with `ValueError` (InvalidDate). -/
theorem birthday_validation :
    (∀ y m d : Nat, 1 ≤ d → d ≤ 31 → 1 ≤ m → m ≤ 12 → 1 ≤ y → y ≤ 9999 →
      (parseBirthday (pad2 d ++ "." ++ pad2 m ++ "." ++ pad4 y) = .ok ⟨y, m, d⟩ ↔
        d ≤ daysInMonth y m)) ∧
    (∀ s dt, parseBirthday s = .ok dt →
      s = pad2 dt.day ++ "." ++ pad2 dt.month ++ "." ++ pad4 dt.year ∧
        1 ≤ dt.day ∧ dt.day ≤ daysInMonth dt.year dt.month ∧
        1 ≤ dt.month ∧ dt.month ≤ 12 ∧ 1 ≤ dt.year ∧ dt.year ≤ 9999) ∧
    (∃ dt, parseBirthday "29.02.2024" = .ok dt) ∧
    parseBirthday "30.02.2020" = .error .valueError ∧
    parseBirthday "31.04.2021" = .error .valueError := by
  refine ⟨?_, ?_, ⟨⟨2024, 2, 29⟩, rfl⟩, rfl, rfl⟩
  · intro y m d hd1 hd31 hm1 hm2 hy1 hy2
    constructor
    · intro hok
      have hsh := parseBirthday_shape _ _ hok
      have hval := hsh.2
      simp [validDate] at hval
      omega
    · intro hdim
      have hv : validDate y m d = true := by
        simp [validDate]
        omega
      exact parse_format y m d hv
  · intro s dt hok
    obtain ⟨hs, hval⟩ := parseBirthday_shape s dt hok
    simp [validDate] at hval
    refine ⟨hs, by omega, by omega, by omega, by omega, by omega, by omega⟩

/-- C6 at a concrete input: the rendering of 15.06.1990 parses back to
that date. -/
theorem birthday_validation_witness :
    parseBirthday (pad2 15 ++ "." ++ pad2 6 ++ "." ++ pad4 1990) =
      .ok ⟨1990, 6, 15⟩ :=
  (birthday_validation.1 1990 6 15 (by decide) (by decide) (by decide)
    (by decide) (by decide) (by decide)).mpr (by decide)

theorem formatDate_ne_empty (b : PyDate) : formatDate b ≠ "" := by
  intro h
  have hd := congrArg String.data h
  simp [formatDate, pad2, pad4, String.data_append] at hd

/-- A record as the validated constructors produce it: validated name,
validated phones, a constructible birthday date when present. -/
def wfRecord (r : Rec) : Prop :=
  nameValid r.name = true ∧ (∀ p ∈ r.phones, phoneValid p = true) ∧
    r.birthday.all (fun b => validDate b.year b.month b.day) = true

/-- A reachable `AddressBook` state: each key is its record's name (the
`dict` is keyed by `record.name.value`), all records validated, keys
unique (as in a Python `dict`). -/
def wfBook (book : Book) : Prop :=
  (∀ kv ∈ book, kv.1 = kv.2.name ∧ wfRecord kv.2) ∧
    (book.map Prod.fst).Nodup

theorem addPhonesLoop_ok (ps : List String) : ∀ r : Rec,
    (∀ p ∈ ps, phoneValid p = true) →
    addPhonesLoop r ps = .ok { r with phones := r.phones ++ ps } := by
  induction ps with
  | nil =>
    intro r _
    simp [addPhonesLoop]
  | cons p ps ih =>
    intro r h
    have hp : phoneValid p = true := h p (List.mem_cons_self _ _)
    simp only [addPhonesLoop, Rec.addPhone, mkPhone, hp, if_true, Except.map]
    rw [ih _ (fun q hq => h q (List.mem_cons_of_mem _ hq))]
    simp [List.append_assoc]

theorem loadRecord_ok (r : Rec) (h : wfRecord r) :
    loadRecord r.name ⟨r.phones, r.birthday.map formatDate⟩ = .ok r := by
  obtain ⟨name, phones, birthday⟩ := r
  obtain ⟨hn, hp, hb⟩ := h
  unfold loadRecord
  simp only [mkRecord, mkName, hn, if_true, Except.map]
  rw [addPhonesLoop_ok phones ⟨name, [], none⟩ hp]
  simp only [List.nil_append]
  cases birthday with
  | none => rfl
  | some b =>
    show (if formatDate b = "" then Except.ok ⟨name, phones, none⟩
      else Rec.addBirthday ⟨name, phones, none⟩ (formatDate b)) =
      Except.ok ⟨name, phones, some b⟩
    rw [if_neg (formatDate_ne_empty b)]
    unfold Rec.addBirthday
    have hv : validDate b.year b.month b.day = true := by simpa [Option.all] using hb
    rw [show parseBirthday (formatDate b) = .ok b from parse_format b.year b.month b.day hv]
    rfl

theorem dictSet_not_mem (book : Book) (key : String) (r : Rec)
    (h : key ∉ book.map Prod.fst) : dictSet book key r = book ++ [(key, r)] := by
  induction book with
  | nil => rfl
  | cons kv rest ih =>
    simp only [List.map_cons, List.mem_cons, not_or] at h
    have hk : (kv.1 == key) = false := by
      simp
      exact fun he => h.1 he.symm
    obtain ⟨k0, v0⟩ := kv
    simp only [dictSet, hk, Bool.false_eq_true, if_false]
    rw [ih h.2]
    rfl

theorem loadLoop_save (book : Book) : ∀ acc : Book,
    (∀ kv ∈ book, kv.1 = kv.2.name ∧ wfRecord kv.2) →
    (book.map Prod.fst).Nodup →
    (∀ k ∈ book.map Prod.fst, k ∉ acc.map Prod.fst) →
    loadLoop (saveAddressBook book) acc = .ok (acc ++ book) := by
  induction book with
  | nil =>
    intro acc _ _ _
    simp [saveAddressBook, loadLoop]
  | cons kv rest ih =>
    intro acc hwf hnd hdisj
    obtain ⟨k, r⟩ := kv
    obtain ⟨hk, hrwf⟩ := hwf (k, r) (List.mem_cons_self _ _)
    simp only [saveAddressBook, List.map_cons, loadLoop] at *
    rw [hk, loadRecord_ok r hrwf]
    show loadLoop _ (addRecord acc r) = _
    have hfresh : r.name ∉ acc.map Prod.fst := by
      have := hdisj k (by simp)
      rwa [hk] at this
    have hins : addRecord acc r = acc ++ [(r.name, r)] :=
      dictSet_not_mem acc r.name r hfresh
    rw [hins]
    have hnd' : (rest.map Prod.fst).Nodup := (List.nodup_cons.mp hnd).2
    have hknotin : k ∉ rest.map Prod.fst := (List.nodup_cons.mp hnd).1
    have hdisj' : ∀ k' ∈ rest.map Prod.fst,
        k' ∉ (acc ++ [(r.name, r)]).map Prod.fst := by
      intro k' hk'
      rw [List.map_append]
      simp only [List.mem_append, List.map_cons, List.map_nil,
        List.mem_singleton, not_or]
      constructor
      · exact hdisj k' (List.mem_cons_of_mem _ hk')
      · intro he
        apply hknotin
        rw [hk, ← he]
        exact hk'
    rw [ih (acc ++ [(r.name, r)]) (fun kv' h' => hwf kv' (List.mem_cons_of_mem _ h'))
      hnd' hdisj']
    rw [List.append_assoc]
    simp [hk]

/-- C5: saving an address book to the JSON snapshot and loading the
snapshot back yields the same book: for each contact, the same name
string, the same phone sequence in the same order, and the same optional
birthday (rendered `DD.MM.YYYY` or absent) survive the round trip. -/
theorem save_load_roundtrip (book : Book) (h : wfBook book) :
    loadAddressBook (saveAddressBook book) = .ok book := by
  unfold loadAddressBook
  have hl := loadLoop_save book [] h.1 h.2 (by simp)
  simpa using hl

/-- C5 at a concrete input: the book with Alice, one phone, and birthday
15.06.1990 round-trips unchanged. -/
theorem save_load_roundtrip_witness :
    loadAddressBook (saveAddressBook
      [("Alice", ⟨"Alice", ["1234567890"], some ⟨1990, 6, 15⟩⟩)]) =
      .ok [("Alice", ⟨"Alice", ["1234567890"], some ⟨1990, 6, 15⟩⟩)] :=
  save_load_roundtrip _
    ⟨by intro kv hkv; rw [List.mem_singleton.mp hkv]; exact ⟨rfl, rfl, by decide, rfl⟩,
     by decide⟩

/-- Claim-side occurrence (C1): this year's occurrence of the birthday's
month/day, replaced by next year's occurrence when strictly before the
reference date. -/
def specOccurrence (today bday : PyDate) : PyDate :=
  if dateLt ⟨today.year, bday.month, bday.day⟩ today then
    ⟨today.year + 1, bday.month, bday.day⟩
  else ⟨today.year, bday.month, bday.day⟩

/-- Claim-side weekend shift (C1): Saturday forward 2 days, Sunday
forward 1 day, otherwise unshifted. -/
def specShift (occ : PyDate) : PyDate :=
  if weekday occ = 5 then addDays occ 2
  else if weekday occ = 6 then addDays occ 1
  else occ

/-- Claim-side entry (C1): include a record exactly when it has a
birthday and `0 ≤ diff < 7` for the unshifted occurrence; report the
weekend-shifted occurrence and the first phone (or the placeholder). -/
def specEntry (today : PyDate) (r : Rec) : Option Congrat :=
  match r.birthday with
  | none => none
  | some bday =>
    let occ := specOccurrence today bday
    let diff : Int := (toOrdinal occ : Int) - (toOrdinal today : Int)
    if 0 ≤ diff ∧ diff < 7 then
      some ⟨r.name, formatDate (specShift occ),
        match r.phones with | [] => " No phone " | p :: _ => p⟩
    else none

/-- Claim-side result (C1): the included records in book order. -/
def specUpcoming (today : PyDate) (book : Book) : List Congrat :=
  book.filterMap fun kv => specEntry today kv.2

/-- The birthday's month/day exists in both the reference year and the
next one (false only for Feb 29 against a non-leap year). -/
def representable (today bday : PyDate) : Prop :=
  validDate today.year bday.month bday.day = true ∧
    validDate (today.year + 1) bday.month bday.day = true

theorem processRecord_eq_specEntry (today : PyDate) (r : Rec)
    (h : ∀ b, r.birthday = some b → representable today b) :
    processRecord today r = .ok (specEntry today r) := by
  cases hbd : r.birthday with
  | none => simp [processRecord, specEntry, hbd]
  | some bday =>
    obtain ⟨h1, h2⟩ := h bday hbd
    unfold processRecord specEntry specOccurrence specShift
    rw [hbd]
    by_cases hlt : dateLt ⟨today.year, bday.month, bday.day⟩ today = true
    · simp only [replaceYear, h1, h2, if_true, hlt]
      split <;> rfl
    · rw [Bool.not_eq_true] at hlt
      simp only [replaceYear, h1, h2, if_true, hlt, Bool.false_eq_true, if_false]
      split <;> rfl

/-- C1: whenever `get_upcoming_birthdays` returns a result (every
birthday's month/day representable in the reference year and the next),
that result contains exactly the records with a birthday whose
occurrence — this year's, or next year's when this year's is strictly
before the reference date — satisfies `0 ≤ diff < 7`, with the
congratulation date being the occurrence shifted Saturday→+2 days,
Sunday→+1 day, the inclusion test using the unshifted occurrence. -/
theorem upcoming_birthdays_spec (today : PyDate) (book : Book)
    (h : ∀ kv ∈ book, ∀ b, kv.2.birthday = some b → representable today b) :
    getUpcomingBirthdays today book = .ok (specUpcoming today book) := by
  induction book with
  | nil => rfl
  | cons kv rest ih =>
    obtain ⟨k, r⟩ := kv
    have hr := processRecord_eq_specEntry today r
      (fun b hb => h (k, r) (List.mem_cons_self _ _) b hb)
    have htail := ih (fun kv' h' b hb => h kv' (List.mem_cons_of_mem _ h') b hb)
    simp only [getUpcomingBirthdays, hr, htail, specUpcoming, List.filterMap_cons]
    cases specEntry today r <;> rfl

/-- C1 at a concrete input: reference Monday 2024-06-10 and a contact
with birthday 15.06.1990: diff is 5, the occurrence 2024-06-15 is a
Saturday and is reported as 17.06.2024. -/
theorem upcoming_birthdays_spec_witness :
    getUpcomingBirthdays ⟨2024, 6, 10⟩
      [("Alice", ⟨"Alice", ["1234567890"], some ⟨1990, 6, 15⟩⟩)] =
      .ok (specUpcoming ⟨2024, 6, 10⟩
        [("Alice", ⟨"Alice", ["1234567890"], some ⟨1990, 6, 15⟩⟩)]) ∧
    specUpcoming ⟨2024, 6, 10⟩
      [("Alice", ⟨"Alice", ["1234567890"], some ⟨1990, 6, 15⟩⟩)] =
      [⟨"Alice", "17.06.2024", "1234567890"⟩] := by
  refine ⟨upcoming_birthdays_spec _ _ ?_, by decide⟩
  intro kv hkv b hb
  rw [List.mem_singleton.mp hkv] at hb
  have hbeq : b = ⟨1990, 6, 15⟩ := by
    injection hb with h
    exact h.symm
  rw [hbeq]
  exact ⟨rfl, rfl⟩

end HelperBot
